import Mathlib

/-!
Verification of the event-log and playback-strategy engine of
`leafwing_input_playback` (shallow embedding of the Rust sources).

Conventions of the embedding:
* `FrameCount` values (bevy's `u32` frame counter) are naturals; where the Rust
  code performs `wrapping_add` on `u32`, the embedding writes `% 2 ^ 32`
  explicitly.  The crate's own legacy `frame_counting::FrameCount` (`u64`,
  saturating arithmetic) is embedded separately as `FrameCount64`.
* `Duration` is embedded as a natural number of nanoseconds: a totally ordered,
  additive quantity, exactly the interface the Rust code uses.
* The bevy-native event payloads (`KeyboardInput`, `MouseButtonInput`, ...) are
  embedded as structures keeping the `window` field (used by the capture-side
  window filter) plus an opaque natural `data` field standing for the remaining
  payload bytes.
* Rust methods that mutate `self` and return an iterator are embedded as
  functions returning the materialized list together with the updated value.
-/

namespace Leafwing

/-- The wrapping modulus of bevy's `u32` `FrameCount`. -/
def u32Mod : Nat := 2 ^ 32

/-- The saturation bound of `u64` (used by `frame_counting::FrameCount`). -/
def u64Max : Nat := 2 ^ 64 - 1

/-- Payload of `bevy::input::keyboard::KeyboardInput`: the target `window`
entity plus the remaining payload bytes, abstracted as `data`. -/
structure KeyboardInput where
  window : Nat
  data : Nat
deriving DecidableEq, Repr

/-- Payload of `bevy::input::mouse::MouseButtonInput`. -/
structure MouseButtonInput where
  window : Nat
  data : Nat
deriving DecidableEq, Repr

/-- Payload of `bevy::input::mouse::MouseWheel`. -/
structure MouseWheel where
  window : Nat
  data : Nat
deriving DecidableEq, Repr

/-- Payload of `bevy::window::CursorMoved`. -/
structure CursorMoved where
  window : Nat
  data : Nat
deriving DecidableEq, Repr

/-- Payload of `bevy::input::gamepad::GamepadEvent` (no window field). -/
structure GamepadEvent where
  data : Nat
deriving DecidableEq, Repr

/-- `InputEvent` from `src/timestamped_input.rs`: the closed union of captured
event variants. -/
inductive InputEvent where
  | Keyboard : KeyboardInput → InputEvent
  | MouseButton : MouseButtonInput → InputEvent
  | MouseWheel : MouseWheel → InputEvent
  | CursorMoved : CursorMoved → InputEvent
  | Gamepad : GamepadEvent → InputEvent
  | AppExit : InputEvent
deriving DecidableEq, Repr

/-- `TimestampedInputEvent` from `src/timestamped_input.rs`. -/
structure TimestampedInputEvent where
  frame : Nat
  time_since_startup : Nat
  input_event : InputEvent
deriving DecidableEq, Repr

/-- `TimestampedInputs` from `src/timestamped_input.rs`: the event log plus the
`cursor` index of the next event to read. -/
structure TimestampedInputs where
  events : List TimestampedInputEvent
  cursor : Nat
deriving DecidableEq, Repr

/-- `SortingStrategy` from `src/timestamped_input.rs`. -/
inductive SortingStrategy where
  | FrameCount
  | TimeSinceStartup
deriving DecidableEq, Repr

namespace TimestampedInputs

/-- `TimestampedInputs::send`: push one timestamped event to the back. -/
def send (t : TimestampedInputs) (frame : Nat) (time_since_startup : Nat)
    (input_event : InputEvent) : TimestampedInputs :=
  { t with events := t.events ++ [⟨frame, time_since_startup, input_event⟩] }

/-- `TimestampedInputs::send_multiple`: `send` each event of the stream in
order. -/
def send_multiple (t : TimestampedInputs) (frame : Nat)
    (time_since_startup : Nat) (event_stream : List InputEvent) :
    TimestampedInputs :=
  event_stream.foldl (fun acc ev => acc.send frame time_since_startup ev) t

/-- `TimestampedInputs::reset_cursor`. -/
def reset_cursor (t : TimestampedInputs) : TimestampedInputs :=
  { t with cursor := 0 }

/-- `TimestampedInputs::len`. -/
def len (t : TimestampedInputs) : Nat := t.events.length

/-- `TimestampedInputs::is_empty`. -/
def is_empty (t : TimestampedInputs) : Bool := t.events.isEmpty

/-- The loop body of `is_sorted` for the frame-count key: walk the list keeping
the previously seen frame (initially `FrameCount(0)`), failing on any
decrease. -/
def isSortedFrameAux : Nat → List TimestampedInputEvent → Bool
  | _, [] => true
  | last_framecount, e :: rest =>
    if e.frame < last_framecount then false
    else isSortedFrameAux e.frame rest

/-- The loop body of `is_sorted` for the time key (initial value
`Duration::ZERO`). -/
def isSortedTimeAux : Nat → List TimestampedInputEvent → Bool
  | _, [] => true
  | last_time, e :: rest =>
    if e.time_since_startup < last_time then false
    else isSortedTimeAux e.time_since_startup rest

/-- `TimestampedInputs::is_sorted`. -/
def is_sorted (t : TimestampedInputs) (strategy : SortingStrategy) : Bool :=
  match strategy with
  | SortingStrategy.FrameCount => isSortedFrameAux 0 t.events
  | SortingStrategy.TimeSinceStartup => isSortedTimeAux 0 t.events

/-- The `while` loop of `iter_until_frame`, acting on the suffix of `events`
that starts at the cursor: collect events while `frame <= bound`, returning the
collected events and the number of loop iterations (the cursor advance). -/
def iterUntilFrameGo (bound : Nat) :
    List TimestampedInputEvent → List TimestampedInputEvent × Nat
  | [] => ([], 0)
  | e :: rest =>
    if e.frame ≤ bound then
      let (r, k) := iterUntilFrameGo bound rest
      (e :: r, k + 1)
    else ([], 0)

/-- `TimestampedInputs::iter_until_frame`: materialize every event from the
cursor on whose frame is `<=` the bound, advancing the cursor past each. -/
def iter_until_frame (t : TimestampedInputs) (frame : Nat) :
    List TimestampedInputEvent × TimestampedInputs :=
  let (r, k) := iterUntilFrameGo frame (t.events.drop t.cursor)
  (r, { t with cursor := t.cursor + k })

/-- The `while` loop of `iter_until_time` (same shape, time key). -/
def iterUntilTimeGo (bound : Nat) :
    List TimestampedInputEvent → List TimestampedInputEvent × Nat
  | [] => ([], 0)
  | e :: rest =>
    if e.time_since_startup ≤ bound then
      let (r, k) := iterUntilTimeGo bound rest
      (e :: r, k + 1)
    else ([], 0)

/-- `TimestampedInputs::iter_until_time`. -/
def iter_until_time (t : TimestampedInputs) (time_since_startup : Nat) :
    List TimestampedInputEvent × TimestampedInputs :=
  let (r, k) := iterUntilTimeGo time_since_startup (t.events.drop t.cursor)
  (r, { t with cursor := t.cursor + k })

/-- The `while` loop of `iter_between_frames`: push events inside the half-open
window, break at the first event whose frame reaches `end_frame`, advance the
cursor over every scanned (pushed or skipped) event. -/
def iterBetweenFramesGo (start_frame end_frame : Nat) :
    List TimestampedInputEvent → List TimestampedInputEvent × Nat
  | [] => ([], 0)
  | e :: rest =>
    if start_frame ≤ e.frame ∧ e.frame < end_frame then
      let (r, k) := iterBetweenFramesGo start_frame end_frame rest
      (e :: r, k + 1)
    else if end_frame ≤ e.frame then ([], 0)
    else
      let (r, k) := iterBetweenFramesGo start_frame end_frame rest
      (r, k + 1)

/-- `TimestampedInputs::iter_between_frames`. -/
def iter_between_frames (t : TimestampedInputs) (start_frame end_frame : Nat) :
    List TimestampedInputEvent × TimestampedInputs :=
  let (r, k) := iterBetweenFramesGo start_frame end_frame
    (t.events.drop t.cursor)
  (r, { t with cursor := t.cursor + k })

/-- The `while` loop of `iter_between_times` (same shape, time key). -/
def iterBetweenTimesGo (start_time end_time : Nat) :
    List TimestampedInputEvent → List TimestampedInputEvent × Nat
  | [] => ([], 0)
  | e :: rest =>
    if start_time ≤ e.time_since_startup ∧ e.time_since_startup < end_time then
      let (r, k) := iterBetweenTimesGo start_time end_time rest
      (e :: r, k + 1)
    else if end_time ≤ e.time_since_startup then ([], 0)
    else
      let (r, k) := iterBetweenTimesGo start_time end_time rest
      (r, k + 1)

/-- `TimestampedInputs::iter_between_times`. -/
def iter_between_times (t : TimestampedInputs) (start_time end_time : Nat) :
    List TimestampedInputEvent × TimestampedInputs :=
  let (r, k) := iterBetweenTimesGo start_time end_time
    (t.events.drop t.cursor)
  (r, { t with cursor := t.cursor + k })

/-- `<TimestampedInputs as Iterator>::next`: return the event at the cursor (if
any) and advance the cursor by one. -/
def next (t : TimestampedInputs) :
    Option TimestampedInputEvent × TimestampedInputs :=
  if h : t.cursor < t.events.length then
    (some (t.events.get ⟨t.cursor, h⟩), { t with cursor := t.cursor + 1 })
  else (none, t)

end TimestampedInputs

/-- `PlaybackStrategy` from `src/input_playback.rs`: a plain enum; the Rust
code attaches no validation of any kind to its construction.  Bounds of the
`TimeRange*` variants are `Duration`s, bounds of the `FrameRange*` variants
are bevy `FrameCount`s; both are embedded as naturals. -/
inductive PlaybackStrategy where
  | Time
  | FrameCount
  | TimeRangeOnce (start : Nat) (stop : Nat)
  | TimeRangeLoop (start : Nat) (stop : Nat)
  | FrameRangeOnce (start : Nat) (stop : Nat)
  | FrameRangeLoop (start : Nat) (stop : Nat)
  | Paused
deriving DecidableEq, Repr

/-- `PlaybackProgress` from `src/input_playback.rs`: per-pass elapsed
counters.  `elapsed_frames` holds a bevy `u32` `FrameCount` value. -/
structure PlaybackProgress where
  elapsed_time : Nat
  elapsed_frames : Nat
deriving DecidableEq, Repr

namespace PlaybackProgress

/-- `Default` for `PlaybackProgress`: both counters zero. -/
def default : PlaybackProgress := ⟨0, 0⟩

/-- `PlaybackProgress::current_frame`:
`FrameCount(start.0.wrapping_add(self.elapsed_frames.0))` — `u32` wrapping
addition, written with an explicit modulus. -/
def current_frame (p : PlaybackProgress) (start : Nat) : Nat :=
  (start + p.elapsed_frames) % u32Mod

/-- `PlaybackProgress::current_time`: `start + self.elapsed_time`. -/
def current_time (p : PlaybackProgress) (start : Nat) : Nat :=
  start + p.elapsed_time

/-- `PlaybackProgress::next_frame`: advance `elapsed_frames` by one
(`u32` wrapping), then return `current_frame`. -/
def next_frame (p : PlaybackProgress) (start : Nat) : Nat × PlaybackProgress :=
  let p' : PlaybackProgress :=
    { p with elapsed_frames := (p.elapsed_frames + 1) % u32Mod }
  (p'.current_frame start, p')

/-- `PlaybackProgress::next_time`: advance `elapsed_time` by `delta`, then
return `current_time`. -/
def next_time (p : PlaybackProgress) (delta : Nat) (start : Nat) :
    Nat × PlaybackProgress :=
  let p' : PlaybackProgress := { p with elapsed_time := p.elapsed_time + delta }
  (p'.current_time start, p')

/-- `PlaybackProgress::reset`: rewind the log's cursor and zero both
counters. -/
def reset (_p : PlaybackProgress) (timestamped_input : TimestampedInputs) :
    PlaybackProgress × TimestampedInputs :=
  (default, timestamped_input.reset_cursor)

end PlaybackProgress

/-- The mutable state read and written by one run of the
`playback_timestamped_input` system: the log, the strategy resource and the
progress resource. -/
structure PlaybackState where
  timestamped_input : TimestampedInputs
  playback_strategy : PlaybackStrategy
  playback_progress : PlaybackProgress
deriving DecidableEq, Repr

/-- One run of the `playback_timestamped_input` system
(`src/input_playback.rs`), given the tick's elapsed time, delta time and frame
count.  Returns the list of timestamped events handed to
`send_playback_events` together with the updated state. -/
def playback_timestamped_input (time_elapsed time_delta frame_count : Nat)
    (st : PlaybackState) : List TimestampedInputEvent × PlaybackState :=
  match st.playback_strategy with
  | PlaybackStrategy.Time =>
    let (out, ti) := st.timestamped_input.iter_until_time time_elapsed
    (out, { st with timestamped_input := ti })
  | PlaybackStrategy.FrameCount =>
    let (out, ti) := st.timestamped_input.iter_until_frame frame_count
    (out, { st with timestamped_input := ti })
  | PlaybackStrategy.TimeRangeOnce start stop =>
    let ws := st.playback_progress.current_time start
    let (we, p1) := st.playback_progress.next_time time_delta start
    let (out, ti) := st.timestamped_input.iter_between_times ws we
    if p1.current_time start > stop then
      let (p2, ti2) := p1.reset ti
      (out, ⟨ti2, PlaybackStrategy.Paused, p2⟩)
    else (out, ⟨ti, st.playback_strategy, p1⟩)
  | PlaybackStrategy.FrameRangeOnce start stop =>
    let ws := st.playback_progress.current_frame start
    let (we, p1) := st.playback_progress.next_frame start
    let (out, ti) := st.timestamped_input.iter_between_frames ws we
    if p1.current_frame start > stop then
      let (p2, ti2) := p1.reset ti
      (out, ⟨ti2, PlaybackStrategy.Paused, p2⟩)
    else (out, ⟨ti, st.playback_strategy, p1⟩)
  | PlaybackStrategy.TimeRangeLoop start stop =>
    let ws := st.playback_progress.current_time start
    let (we, p1) := st.playback_progress.next_time time_delta start
    let (out, ti) := st.timestamped_input.iter_between_times ws we
    if p1.current_time start > stop then
      let (p2, ti2) := p1.reset ti
      (out, ⟨ti2, st.playback_strategy, p2⟩)
    else (out, ⟨ti, st.playback_strategy, p1⟩)
  | PlaybackStrategy.FrameRangeLoop start stop =>
    let ws := st.playback_progress.current_frame start
    let (we, p1) := st.playback_progress.next_frame start
    let (out, ti) := st.timestamped_input.iter_between_frames ws we
    if p1.current_frame start > stop then
      let (p2, ti2) := p1.reset ti
      (out, ⟨ti2, st.playback_strategy, p2⟩)
    else (out, ⟨ti, st.playback_strategy, p1⟩)
  | PlaybackStrategy.Paused => ([], st)

namespace frame_counting

/-- The crate's own legacy `FrameCount` (`src/frame_counting.rs`): a `u64`
counter.  Values are naturals `< 2 ^ 64`. -/
structure FrameCount64 where
  val : Nat
deriving DecidableEq, Repr

/-- `impl Add for FrameCount`: `u64` `saturating_add`, clamped at `u64::MAX`
(total on naturals; faithful for operands `< 2 ^ 64`). -/
def FrameCount64.add (a b : FrameCount64) : FrameCount64 :=
  ⟨min (a.val + b.val) u64Max⟩

/-- `impl Sub for FrameCount`: `u64` `saturating_sub` (truncated subtraction,
exactly `Nat` subtraction). -/
def FrameCount64.sub (a b : FrameCount64) : FrameCount64 :=
  ⟨a.val - b.val⟩

end frame_counting

/-- `InputModesCaptured` from `src/input_capture.rs`: the per-device-class
capture mask. -/
structure InputModesCaptured where
  mouse_buttons : Bool
  mouse_motion : Bool
  keyboard : Bool
  gamepad : Bool
deriving DecidableEq, Repr

namespace InputModesCaptured

/-- `InputModesCaptured::DISABLE_ALL`. -/
def DISABLE_ALL : InputModesCaptured := ⟨false, false, false, false⟩

/-- `InputModesCaptured::ENABLE_ALL` (the `Default`). -/
def ENABLE_ALL : InputModesCaptured := ⟨true, true, true, true⟩

end InputModesCaptured

/-- The per-tick contents of the host's raw event queues drained by
`capture_input`.  In bevy these are `EventReader`s; a tick's `capture_input`
run consumes them completely whether or not the class is enabled (the
disabled branches call `.clear()`), which the embedding models by taking the
queues as per-tick input values. -/
structure RawInputQueues where
  mouse_button_events : List MouseButtonInput
  mouse_wheel_events : List MouseWheel
  cursor_moved_events : List CursorMoved
  keyboard_events : List KeyboardInput
  gamepad_events : List GamepadEvent
  app_exit_events : List Unit
deriving DecidableEq, Repr

/-- The capture-side window filter:
`window_to_capture.map(|w| w.0 == event.window).unwrap_or(true)`. -/
def windowPass (window_to_capture : Option Nat) (window : Nat) : Bool :=
  match window_to_capture with
  | some w => w == window
  | none => true

/-- One run of the `capture_input` system (`src/input_capture.rs`): drain
each device-class queue in the fixed source order (mouse buttons, mouse
wheel, cursor motion, keyboard, gamepad, app exit), appending the drained
events of the enabled classes — tagged with the tick's frame and time — to
the log; the `AppExit` queue is appended unconditionally. -/
def capture_input (queues : RawInputQueues) (window_to_capture : Option Nat)
    (input_modes_captured : InputModesCaptured) (frame : Nat)
    (time_since_startup : Nat) (timestamped_input : TimestampedInputs) :
    TimestampedInputs :=
  let t := timestamped_input
  let t :=
    if input_modes_captured.mouse_buttons then
      let t := t.send_multiple frame time_since_startup
        ((queues.mouse_button_events.filter
          (fun e => windowPass window_to_capture e.window)).map
          InputEvent.MouseButton)
      t.send_multiple frame time_since_startup
        ((queues.mouse_wheel_events.filter
          (fun e => windowPass window_to_capture e.window)).map
          InputEvent.MouseWheel)
    else t
  let t :=
    if input_modes_captured.mouse_motion then
      t.send_multiple frame time_since_startup
        ((queues.cursor_moved_events.filter
          (fun e => windowPass window_to_capture e.window)).map
          InputEvent.CursorMoved)
    else t
  let t :=
    if input_modes_captured.keyboard then
      t.send_multiple frame time_since_startup
        ((queues.keyboard_events.filter
          (fun e => windowPass window_to_capture e.window)).map
          InputEvent.Keyboard)
    else t
  let t :=
    if input_modes_captured.gamepad then
      t.send_multiple frame time_since_startup
        (queues.gamepad_events.map InputEvent.Gamepad)
    else t
  t.send_multiple frame time_since_startup
    (queues.app_exit_events.map (fun _ => InputEvent.AppExit))

/-- The list of timestamped events one `capture_input` run appends to the
log (in order).  `capture_input` equals appending this list; see
`capture_input_eq_append`. -/
def captureTickEvents (queues : RawInputQueues)
    (window_to_capture : Option Nat)
    (input_modes_captured : InputModesCaptured) (frame : Nat)
    (time_since_startup : Nat) : List TimestampedInputEvent :=
  let tag : InputEvent → TimestampedInputEvent :=
    fun ev => ⟨frame, time_since_startup, ev⟩
  (if input_modes_captured.mouse_buttons then
    ((queues.mouse_button_events.filter
      (fun e => windowPass window_to_capture e.window)).map
      (fun e => tag (InputEvent.MouseButton e))) ++
    ((queues.mouse_wheel_events.filter
      (fun e => windowPass window_to_capture e.window)).map
      (fun e => tag (InputEvent.MouseWheel e)))
  else []) ++
  (if input_modes_captured.mouse_motion then
    (queues.cursor_moved_events.filter
      (fun e => windowPass window_to_capture e.window)).map
      (fun e => tag (InputEvent.CursorMoved e))
  else []) ++
  (if input_modes_captured.keyboard then
    (queues.keyboard_events.filter
      (fun e => windowPass window_to_capture e.window)).map
      (fun e => tag (InputEvent.Keyboard e))
  else []) ++
  (if input_modes_captured.gamepad then
    queues.gamepad_events.map (fun e => tag (InputEvent.Gamepad e))
  else []) ++
  queues.app_exit_events.map (fun _ => tag InputEvent.AppExit)

/-- Fold `capture_input` over a list of ticks, each with its own queue
contents, window filter, mask, frame and time. -/
def runCapture
    (ticks : List (RawInputQueues × Option Nat × InputModesCaptured ×
      Nat × Nat))
    (timestamped_input : TimestampedInputs) : TimestampedInputs :=
  ticks.foldl
    (fun log tick =>
      capture_input tick.1 tick.2.1 tick.2.2.1 tick.2.2.2.1 tick.2.2.2.2 log)
    timestamped_input

/-!
### Serialization adapter

`serialize_timestamped_inputs` / `deserialize_timestamped_inputs` hand the
log to the external RON library (`ron::ser::to_string_pretty`,
`ron::de::from_reader`), whose encoder and decoder are not part of this
repository.  Modelled from the spec: "Serialization format is a structured,
human-readable text encoding of the full `events` vector plus `cursor`;
deserialization reproduces an `EventLog` that is observably identical (same
events in the same order, same cursor) to the one serialized."  The text
encoding below writes one line per record — a marker, the frame, the elapsed
time and the tagged variant payload, all numbers in decimal — followed by a
trailing cursor line, mirroring the persisted-file description of §6.
-/

/-- The decimal digit character for `d < 10`. -/
def digitChar (d : Nat) : Char := Char.ofNat (48 + d)

/-- Modelled from the spec: decimal text encoding of a natural number. -/
def natChars (n : Nat) : List Char :=
  if _h : n < 10 then [digitChar n]
  else natChars (n / 10) ++ [digitChar (n % 10)]
termination_by n
decreasing_by exact Nat.div_lt_self (by omega) (by omega)

/-- Consume a maximal run of decimal digits, accumulating their value. -/
def readNat : List Char → Nat → Nat × List Char
  | [], acc => (acc, [])
  | c :: cs, acc =>
    if c.isDigit then readNat cs (acc * 10 + (c.toNat - 48))
    else (acc, c :: cs)

/-- Parse a natural number (at least one digit required). -/
def parseNum (l : List Char) : Option (Nat × List Char) :=
  match l with
  | c :: cs => if c.isDigit then some (readNat (c :: cs) 0) else none
  | [] => none

/-- Require and consume one expected character. -/
def expectChar (c : Char) : List Char → Option (List Char)
  | x :: xs => if x = c then some xs else none
  | [] => none

/-- Modelled from the spec: text encoding of one tagged variant payload. -/
def serializeEvent : InputEvent → List Char
  | InputEvent.Keyboard k =>
    '0' :: ' ' :: (natChars k.window ++ ' ' :: natChars k.data)
  | InputEvent.MouseButton b =>
    '1' :: ' ' :: (natChars b.window ++ ' ' :: natChars b.data)
  | InputEvent.MouseWheel w =>
    '2' :: ' ' :: (natChars w.window ++ ' ' :: natChars w.data)
  | InputEvent.CursorMoved c =>
    '3' :: ' ' :: (natChars c.window ++ ' ' :: natChars c.data)
  | InputEvent.Gamepad g => '4' :: ' ' :: natChars g.data
  | InputEvent.AppExit => ['5']

/-- Parse a two-number payload (window entity and data). -/
def parsePayload2 (mk : Nat → Nat → InputEvent) (l : List Char) :
    Option (InputEvent × List Char) := do
  let l ← expectChar ' ' l
  let (w, l) ← parseNum l
  let l ← expectChar ' ' l
  let (d, l) ← parseNum l
  some (mk w d, l)

/-- Parse one tagged variant payload. -/
def parseEvent (l : List Char) : Option (InputEvent × List Char) :=
  match l with
  | '0' :: l => parsePayload2 (fun w d => InputEvent.Keyboard ⟨w, d⟩) l
  | '1' :: l => parsePayload2 (fun w d => InputEvent.MouseButton ⟨w, d⟩) l
  | '2' :: l => parsePayload2 (fun w d => InputEvent.MouseWheel ⟨w, d⟩) l
  | '3' :: l => parsePayload2 (fun w d => InputEvent.CursorMoved ⟨w, d⟩) l
  | '4' :: l => do
    let l ← expectChar ' ' l
    let (d, l) ← parseNum l
    some (InputEvent.Gamepad ⟨d⟩, l)
  | '5' :: l => some (InputEvent.AppExit, l)
  | _ => none

/-- Modelled from the spec: one record line
`(frame, elapsed, tagged-variant-payload)`. -/
def serializeRecord (e : TimestampedInputEvent) : List Char :=
  'e' :: ' ' :: (natChars e.frame ++ ' ' ::
    (natChars e.time_since_startup ++ ' ' ::
      (serializeEvent e.input_event ++ ['\n'])))

/-- Parse one record line. -/
def parseRecord (l : List Char) :
    Option (TimestampedInputEvent × List Char) := do
  let l ← expectChar 'e' l
  let l ← expectChar ' ' l
  let (frame, l) ← parseNum l
  let l ← expectChar ' ' l
  let (time, l) ← parseNum l
  let l ← expectChar ' ' l
  let (ev, l) ← parseEvent l
  let l ← expectChar '\n' l
  some (⟨frame, time, ev⟩, l)

/-- Parse the leading run of record lines (fuel-bounded; each record consumes
at least one character, so fuel equal to the input length suffices). -/
def parseRecords : Nat → List Char →
    Option (List TimestampedInputEvent × List Char)
  | 0, l => some ([], l)
  | fuel + 1, l =>
    match l with
    | c :: cs =>
      if c = 'e' then do
        let (e, l1) ← parseRecord (c :: cs)
        let (es, l2) ← parseRecords fuel l1
        some (e :: es, l2)
      else some ([], c :: cs)
    | [] => some ([], [])

/-- Modelled from the spec: the persisted text form — every record in order,
then a trailing cursor line. -/
def serialize (log : TimestampedInputs) : List Char :=
  (log.events.map serializeRecord).flatten ++
    'c' :: ' ' :: (natChars log.cursor ++ ['\n'])

/-- Modelled from the spec: parse the persisted text form back into a log;
trailing garbage or malformed content is a visible error (`none`). -/
def deserialize (l : List Char) : Option TimestampedInputs := do
  let (events, l1) ← parseRecords l.length l
  let l2 ← expectChar 'c' l1
  let l3 ← expectChar ' ' l2
  let (cursor, l4) ← parseNum l3
  let l5 ← expectChar '\n' l4
  match l5 with
  | [] => some ⟨events, cursor⟩
  | _ => none

/-!
### Derived forms used to state the claims
-/

/-- One cursor-consuming operation on the log: the five reading operations of
`TimestampedInputs` (claim C9 quantifies over sequences of these). -/
inductive LogOp where
  | next
  | iterUntilTime (t : Nat)
  | iterUntilFrame (f : Nat)
  | iterBetweenTimes (s e : Nat)
  | iterBetweenFrames (s e : Nat)
deriving DecidableEq, Repr

/-- Apply one `LogOp`, returning the delivered batch (a singleton or empty
list for `next`) and the updated log. -/
def applyOp (op : LogOp) (t : TimestampedInputs) :
    List TimestampedInputEvent × TimestampedInputs :=
  match op with
  | LogOp.next =>
    let (o, t') := t.next
    (o.toList, t')
  | LogOp.iterUntilTime x => t.iter_until_time x
  | LogOp.iterUntilFrame f => t.iter_until_frame f
  | LogOp.iterBetweenTimes s e => t.iter_between_times s e
  | LogOp.iterBetweenFrames s e => t.iter_between_frames s e

/-- Apply a sequence of `LogOp`s, concatenating every delivered batch. -/
def runOps : List LogOp → TimestampedInputs →
    List TimestampedInputEvent × TimestampedInputs
  | [], t => ([], t)
  | op :: ops, t =>
    let (out, t1) := applyOp op t
    let (outs, t2) := runOps ops t1
    (out ++ outs, t2)

/-- Is this a keyboard event? -/
def isKeyboard : InputEvent → Bool
  | InputEvent.Keyboard _ => true
  | _ => false

/-- Is this a mouse-button event? -/
def isMouseButton : InputEvent → Bool
  | InputEvent.MouseButton _ => true
  | _ => false

/-- Is this a mouse-wheel event? -/
def isMouseWheel : InputEvent → Bool
  | InputEvent.MouseWheel _ => true
  | _ => false

/-- Is this a cursor-motion event? -/
def isCursorMoved : InputEvent → Bool
  | InputEvent.CursorMoved _ => true
  | _ => false

/-- Is this a gamepad event? -/
def isGamepad : InputEvent → Bool
  | InputEvent.Gamepad _ => true
  | _ => false

/-- A keyboard press (mirrors `TEST_PRESS` of the repository's tests). -/
def TEST_PRESS : InputEvent := InputEvent.Keyboard ⟨0, 1⟩

/-- A keyboard release (mirrors `TEST_RELEASE` of the repository's tests). -/
def TEST_RELEASE : InputEvent := InputEvent.Keyboard ⟨0, 2⟩

/-- The five-event log with frames `{0, 1, 2, 2, 3}` (sorted, cursor `0`)
used by the bounded-playback scenarios; mirrors
`complex_timestamped_input` of `tests/input_playback.rs`. -/
def complexLog : TimestampedInputs :=
  ⟨[⟨0, 0, TEST_PRESS⟩, ⟨1, 1, TEST_RELEASE⟩, ⟨2, 2, TEST_PRESS⟩,
    ⟨2, 3, TEST_PRESS⟩, ⟨3, 3, TEST_PRESS⟩], 0⟩

/-- One tick of the playback system under a frame-range strategy (the tick's
time parameters are not read by the `FrameRange*` branches). -/
def frameTick (st : PlaybackState) : List TimestampedInputEvent ×
    PlaybackState :=
  playback_timestamped_input 0 0 0 st

/-!
### Characterizations of the cursor-query loops
-/

/-- `iter_until_frame`'s loop collects exactly the maximal `frame ≤ bound`
prefix and advances the cursor over it. -/
theorem iterUntilFrameGo_spec (bound : Nat) (l : List TimestampedInputEvent) :
    TimestampedInputs.iterUntilFrameGo bound l =
      (l.takeWhile (fun ev => decide (ev.frame ≤ bound)),
       (l.takeWhile (fun ev => decide (ev.frame ≤ bound))).length) := by
  induction l with
  | nil => rfl
  | cons ev rest ih =>
    by_cases h : ev.frame ≤ bound
    · simp [TimestampedInputs.iterUntilFrameGo, h, ih, List.takeWhile_cons]
    · simp [TimestampedInputs.iterUntilFrameGo, h, List.takeWhile_cons]

/-- `iter_until_time`'s loop, same shape on the time key. -/
theorem iterUntilTimeGo_spec (bound : Nat) (l : List TimestampedInputEvent) :
    TimestampedInputs.iterUntilTimeGo bound l =
      (l.takeWhile (fun ev => decide (ev.time_since_startup ≤ bound)),
       (l.takeWhile (fun ev => decide (ev.time_since_startup ≤ bound))).length) := by
  induction l with
  | nil => rfl
  | cons ev rest ih =>
    by_cases h : ev.time_since_startup ≤ bound
    · simp [TimestampedInputs.iterUntilTimeGo, h, ih, List.takeWhile_cons]
    · simp [TimestampedInputs.iterUntilTimeGo, h, List.takeWhile_cons]

/-- `iter_between_frames`'s loop scans exactly the maximal `frame < end`
prefix (that is the cursor advance) and emits the `start ≤ frame` events of
that prefix. -/
theorem iterBetweenFramesGo_spec (s e : Nat) (l : List TimestampedInputEvent) :
    TimestampedInputs.iterBetweenFramesGo s e l =
      ((l.takeWhile (fun ev => decide (ev.frame < e))).filter
        (fun ev => decide (s ≤ ev.frame)),
       (l.takeWhile (fun ev => decide (ev.frame < e))).length) := by
  induction l with
  | nil => rfl
  | cons ev rest ih =>
    by_cases h1 : s ≤ ev.frame ∧ ev.frame < e
    · simp [TimestampedInputs.iterBetweenFramesGo, h1, ih,
        List.takeWhile_cons, h1.1, h1.2, List.filter_cons]
    · by_cases h2 : e ≤ ev.frame
      · simp [TimestampedInputs.iterBetweenFramesGo, h1, h2,
          List.takeWhile_cons, Nat.not_lt.mpr h2]
      · have hlt : ev.frame < e := Nat.not_le.mp h2
        have hns : ¬ s ≤ ev.frame := fun hs => h1 ⟨hs, hlt⟩
        simp [TimestampedInputs.iterBetweenFramesGo, h1, h2, ih,
          List.takeWhile_cons, hlt, hns, List.filter_cons]

/-- `iter_between_times`'s loop, same shape on the time key. -/
theorem iterBetweenTimesGo_spec (s e : Nat) (l : List TimestampedInputEvent) :
    TimestampedInputs.iterBetweenTimesGo s e l =
      ((l.takeWhile (fun ev => decide (ev.time_since_startup < e))).filter
        (fun ev => decide (s ≤ ev.time_since_startup)),
       (l.takeWhile (fun ev => decide (ev.time_since_startup < e))).length) := by
  induction l with
  | nil => rfl
  | cons ev rest ih =>
    by_cases h1 : s ≤ ev.time_since_startup ∧ ev.time_since_startup < e
    · simp [TimestampedInputs.iterBetweenTimesGo, h1, ih,
        List.takeWhile_cons, h1.1, h1.2, List.filter_cons]
    · by_cases h2 : e ≤ ev.time_since_startup
      · simp [TimestampedInputs.iterBetweenTimesGo, h1, h2,
          List.takeWhile_cons, Nat.not_lt.mpr h2]
      · have hlt : ev.time_since_startup < e := Nat.not_le.mp h2
        have hns : ¬ s ≤ ev.time_since_startup := fun hs => h1 ⟨hs, hlt⟩
        simp [TimestampedInputs.iterBetweenTimesGo, h1, h2, ih,
          List.takeWhile_cons, hlt, hns, List.filter_cons]

/-!
### Sortedness
-/

/-- The `is_sorted` frame walk implies pairwise-nondecreasing frames (and a
lower bound by the carried last-seen value). -/
theorem isSortedFrameAux_pairwise :
    ∀ (l : List TimestampedInputEvent) (last : Nat),
    TimestampedInputs.isSortedFrameAux last l = true →
    l.Pairwise (fun a b => a.frame ≤ b.frame) ∧ ∀ x ∈ l, last ≤ x.frame := by
  intro l
  induction l with
  | nil => intro last _; simp
  | cons ev rest ih =>
    intro last h
    by_cases hc : ev.frame < last
    · simp [TimestampedInputs.isSortedFrameAux, hc] at h
    · simp only [TimestampedInputs.isSortedFrameAux, if_neg hc] at h
      obtain ⟨hp, hall⟩ := ih ev.frame h
      refine ⟨List.pairwise_cons.mpr ⟨hall, hp⟩, ?_⟩
      intro x hx
      rcases List.mem_cons.mp hx with hx | hx
      · exact hx ▸ Nat.not_lt.mp hc
      · exact le_trans (Nat.not_lt.mp hc) (hall x hx)

/-- The `is_sorted` time walk implies pairwise-nondecreasing timestamps. -/
theorem isSortedTimeAux_pairwise :
    ∀ (l : List TimestampedInputEvent) (last : Nat),
    TimestampedInputs.isSortedTimeAux last l = true →
    l.Pairwise (fun a b => a.time_since_startup ≤ b.time_since_startup) ∧
      ∀ x ∈ l, last ≤ x.time_since_startup := by
  intro l
  induction l with
  | nil => intro last _; simp
  | cons ev rest ih =>
    intro last h
    by_cases hc : ev.time_since_startup < last
    · simp [TimestampedInputs.isSortedTimeAux, hc] at h
    · simp only [TimestampedInputs.isSortedTimeAux, if_neg hc] at h
      obtain ⟨hp, hall⟩ := ih ev.time_since_startup h
      refine ⟨List.pairwise_cons.mpr ⟨hall, hp⟩, ?_⟩
      intro x hx
      rcases List.mem_cons.mp hx with hx | hx
      · exact hx ▸ Nat.not_lt.mp hc
      · exact le_trans (Nat.not_lt.mp hc) (hall x hx)

/-- A frame-sorted log has pairwise-nondecreasing frames. -/
theorem is_sorted_frame_pairwise (t : TimestampedInputs)
    (h : t.is_sorted SortingStrategy.FrameCount = true) :
    t.events.Pairwise (fun a b => a.frame ≤ b.frame) :=
  (isSortedFrameAux_pairwise t.events 0 h).1

/-- A time-sorted log has pairwise-nondecreasing timestamps. -/
theorem is_sorted_time_pairwise (t : TimestampedInputs)
    (h : t.is_sorted SortingStrategy.TimeSinceStartup = true) :
    t.events.Pairwise
      (fun a b => a.time_since_startup ≤ b.time_since_startup) :=
  (isSortedTimeAux_pairwise t.events 0 h).1

/-- On a list with pairwise-nondecreasing keys, taking while `key < e` is the
same as filtering by `key < e`. -/
theorem takeWhile_eq_filter_of_pairwise (key : TimestampedInputEvent → Nat)
    (e : Nat) :
    ∀ l : List TimestampedInputEvent,
    l.Pairwise (fun a b => key a ≤ key b) →
    l.takeWhile (fun x => decide (key x < e)) =
      l.filter (fun x => decide (key x < e)) := by
  intro l
  induction l with
  | nil => intro _; rfl
  | cons x rest ih =>
    intro hp
    rw [List.pairwise_cons] at hp
    obtain ⟨hall, hrest⟩ := hp
    by_cases h : key x < e
    · simp [List.takeWhile_cons, List.filter_cons, h, ih hrest]
    · have hTW : (x :: rest).takeWhile (fun y => decide (key y < e)) = [] := by
        simp [List.takeWhile_cons, h]
      have hF : (x :: rest).filter (fun y => decide (key y < e)) = [] := by
        refine List.filter_eq_nil_iff.mpr ?_
        intro y hy
        simp only [decide_eq_true_eq]
        rcases List.mem_cons.mp hy with hy | hy
        · exact hy ▸ h
        · exact fun hlt => h (lt_of_le_of_lt (hall y hy) hlt)
      rw [hTW, hF]

/-- On a list with pairwise-nondecreasing keys, the emitted batch of a
between-window loop is the window filter of the whole list. -/
theorem filter_takeWhile_window (key : TimestampedInputEvent → Nat)
    (s e : Nat) :
    ∀ l : List TimestampedInputEvent,
    l.Pairwise (fun a b => key a ≤ key b) →
    (l.takeWhile (fun x => decide (key x < e))).filter
        (fun x => decide (s ≤ key x)) =
      l.filter (fun x => decide (s ≤ key x ∧ key x < e)) := by
  intro l
  induction l with
  | nil => intro _; rfl
  | cons x rest ih =>
    intro hp
    rw [List.pairwise_cons] at hp
    obtain ⟨hall, hrest⟩ := hp
    by_cases h : key x < e
    · by_cases hs : s ≤ key x
      · simp [List.takeWhile_cons, List.filter_cons, h, hs, ih hrest]
      · simp [List.takeWhile_cons, List.filter_cons, h, hs, ih hrest]
    · have hTW : (x :: rest).takeWhile (fun y => decide (key y < e)) = [] := by
        simp [List.takeWhile_cons, h]
      rw [hTW, List.filter_nil]
      symm
      refine List.filter_eq_nil_iff.mpr ?_
      intro y hy
      simp only [decide_eq_true_eq, not_and]
      rcases List.mem_cons.mp hy with hy | hy
      · exact fun _ => hy ▸ h
      · exact fun _ hlt => h (lt_of_le_of_lt (hall y hy) hlt)

/-- `takeWhile` keeps a list all of whose elements satisfy the predicate. -/
theorem takeWhile_of_all (p : TimestampedInputEvent → Bool) :
    ∀ l : List TimestampedInputEvent,
    (∀ x ∈ l, p x = true) → l.takeWhile p = l := by
  intro l
  induction l with
  | nil => intro _; rfl
  | cons a rest ih =>
    intro h
    rw [List.takeWhile_cons, if_pos (h a (List.mem_cons_self a rest))]
    rw [ih (fun x hx => h x (List.mem_cons_of_mem a hx))]

/-- In a list with pairwise-nondecreasing frames, every element's frame is
bounded by the last element's frame. -/
theorem frame_le_of_getLast :
    ∀ (l : List TimestampedInputEvent) (z : TimestampedInputEvent),
    l.Pairwise (fun a b => a.frame ≤ b.frame) → l.getLast? = some z →
    ∀ x ∈ l, x.frame ≤ z.frame := by
  intro l
  induction l with
  | nil => intro z _ hz; simp at hz
  | cons a rest ih =>
    intro z hp hz x hx
    rw [List.pairwise_cons] at hp
    cases rest with
    | nil =>
      have haz : a = z := by simpa using hz
      have hxa : x = a := by simpa using hx
      simp [hxa, haz]
    | cons b rest2 =>
      have hz' : (b :: rest2).getLast? = some z := by
        rw [List.getLast?_cons_cons] at hz
        exact hz
      rcases List.mem_cons.mp hx with hxa | hxr
      · obtain ⟨hne, hzeq⟩ :=
          List.mem_getLast?_eq_getLast (Option.mem_def.mpr hz')
        have hzmem : z ∈ b :: rest2 := hzeq ▸ List.getLast_mem hne
        exact hxa ▸ hp.1 z hzmem
      · exact ih z hp.2 hz' x hxr

/-- C6: after `iter_until_frame F` with `F` at least the last event's frame,
the cursor sits at the log's length, and a further `iter_until_frame` (at any
bound, without `reset_cursor`) yields an empty batch. -/
theorem c6_cursor_exhaustion (t : TimestampedInputs) (F : Nat)
    (hsorted : t.is_sorted SortingStrategy.FrameCount = true)
    (hcursor : t.cursor ≤ t.events.length)
    (hlast : ∀ z ∈ t.events.getLast?, z.frame ≤ F) :
    (t.iter_until_frame F).2.cursor = t.events.length ∧
    ∀ F2 : Nat, ((t.iter_until_frame F).2.iter_until_frame F2).1 = [] := by
  have hall : ∀ x ∈ t.events, x.frame ≤ F := by
    cases hL : t.events.getLast? with
    | none =>
      have hnil : t.events = [] := List.getLast?_eq_none_iff.mp hL
      simp [hnil]
    | some z =>
      intro x hx
      have hz : z.frame ≤ F := hlast z (Option.mem_def.mpr hL)
      exact le_trans
        (frame_le_of_getLast t.events z (is_sorted_frame_pairwise t hsorted)
          hL x hx) hz
  have hsuffix : ∀ x ∈ t.events.drop t.cursor,
      (fun ev => decide (ev.frame ≤ F)) x = true := by
    intro x hx
    simp only [decide_eq_true_eq]
    exact hall x (List.drop_subset _ _ hx)
  have hTW := takeWhile_of_all _ _ hsuffix
  have hc1 : (t.iter_until_frame F).2.cursor = t.events.length := by
    simp only [TimestampedInputs.iter_until_frame, iterUntilFrameGo_spec]
    rw [hTW, List.length_drop]
    omega
  refine ⟨hc1, ?_⟩
  intro F2
  simp only [TimestampedInputs.iter_until_frame, iterUntilFrameGo_spec]
  rw [hTW, List.length_drop]
  have harith : t.cursor + (t.events.length - t.cursor) = t.events.length :=
    by omega
  rw [harith, List.drop_length]
  rfl

/-- C7: on a log sorted by the matching key, `iter_between_frames` (resp.
`iter_between_times`) emits, in order, exactly the events from the cursor on
whose key lies in the half-open window `[start, end)`, and advances the
cursor over the whole scanned prefix, stopping at the first event whose key
reaches `end`. -/
theorem c7_half_open_window (t : TimestampedInputs) (s e : Nat) :
    (t.is_sorted SortingStrategy.FrameCount = true →
      (t.iter_between_frames s e).1 =
        (t.events.drop t.cursor).filter
          (fun ev => decide (s ≤ ev.frame ∧ ev.frame < e)) ∧
      (t.iter_between_frames s e).2.cursor =
        t.cursor + ((t.events.drop t.cursor).takeWhile
          (fun ev => decide (ev.frame < e))).length) ∧
    (t.is_sorted SortingStrategy.TimeSinceStartup = true →
      (t.iter_between_times s e).1 =
        (t.events.drop t.cursor).filter
          (fun ev => decide (s ≤ ev.time_since_startup ∧
            ev.time_since_startup < e)) ∧
      (t.iter_between_times s e).2.cursor =
        t.cursor + ((t.events.drop t.cursor).takeWhile
          (fun ev => decide (ev.time_since_startup < e))).length) := by
  constructor
  · intro hs
    have hps : (t.events.drop t.cursor).Pairwise
        (fun a b => a.frame ≤ b.frame) :=
      (is_sorted_frame_pairwise t hs).sublist (List.drop_sublist _ _)
    constructor
    · simp only [TimestampedInputs.iter_between_frames,
        iterBetweenFramesGo_spec]
      exact filter_takeWhile_window (fun ev => ev.frame) s e _ hps
    · simp only [TimestampedInputs.iter_between_frames,
        iterBetweenFramesGo_spec]
  · intro hs
    have hps : (t.events.drop t.cursor).Pairwise
        (fun a b => a.time_since_startup ≤ b.time_since_startup) :=
      (is_sorted_time_pairwise t hs).sublist (List.drop_sublist _ _)
    constructor
    · simp only [TimestampedInputs.iter_between_times,
        iterBetweenTimesGo_spec]
      exact filter_takeWhile_window (fun ev => ev.time_since_startup) s e _ hps
    · simp only [TimestampedInputs.iter_between_times,
        iterBetweenTimesGo_spec]

/-- C10: a degenerate window (`start ≥ end`) emits nothing — no unsigned
wraparound creates a non-empty window — while the cursor still advances past
every event (from the cursor on) whose key is strictly below `end`. -/
theorem c10_degenerate_window (t : TimestampedInputs) (s e : Nat)
    (hse : e ≤ s) :
    ((t.iter_between_frames s e).1 = [] ∧
      (t.is_sorted SortingStrategy.FrameCount = true →
        (t.iter_between_frames s e).2.cursor =
          t.cursor + ((t.events.drop t.cursor).filter
            (fun ev => decide (ev.frame < e))).length)) ∧
    ((t.iter_between_times s e).1 = [] ∧
      (t.is_sorted SortingStrategy.TimeSinceStartup = true →
        (t.iter_between_times s e).2.cursor =
          t.cursor + ((t.events.drop t.cursor).filter
            (fun ev => decide (ev.time_since_startup < e))).length)) := by
  constructor
  · constructor
    · simp only [TimestampedInputs.iter_between_frames,
        iterBetweenFramesGo_spec]
      refine List.filter_eq_nil_iff.mpr ?_
      intro y hy
      have hlt : y.frame < e := by
        have := List.mem_takeWhile_imp hy
        simpa using this
      simp only [decide_eq_true_eq]
      omega
    · intro hs
      have hps : (t.events.drop t.cursor).Pairwise
          (fun a b => a.frame ≤ b.frame) :=
        (is_sorted_frame_pairwise t hs).sublist (List.drop_sublist _ _)
      simp only [TimestampedInputs.iter_between_frames,
        iterBetweenFramesGo_spec]
      rw [takeWhile_eq_filter_of_pairwise (fun ev => ev.frame) e _ hps]
  · constructor
    · simp only [TimestampedInputs.iter_between_times,
        iterBetweenTimesGo_spec]
      refine List.filter_eq_nil_iff.mpr ?_
      intro y hy
      have hlt : y.time_since_startup < e := by
        have := List.mem_takeWhile_imp hy
        simpa using this
      simp only [decide_eq_true_eq]
      omega
    · intro hs
      have hps : (t.events.drop t.cursor).Pairwise
          (fun a b => a.time_since_startup ≤ b.time_since_startup) :=
        (is_sorted_time_pairwise t hs).sublist (List.drop_sublist _ _)
      simp only [TimestampedInputs.iter_between_times,
        iterBetweenTimesGo_spec]
      rw [takeWhile_eq_filter_of_pairwise
        (fun ev => ev.time_since_startup) e _ hps]

/-- `takeWhile` is the `take` of its own length. -/
theorem takeWhile_eq_take_length (p : TimestampedInputEvent → Bool)
    (l : List TimestampedInputEvent) :
    l.takeWhile p = l.take (l.takeWhile p).length :=
  List.prefix_iff_eq_take.mp (List.takeWhile_prefix p)

/-- Every single reading operation preserves the stored events, never moves
the cursor backwards, and delivers a subsequence of the slice of events its
cursor advance skips over. -/
theorem applyOp_spec (op : LogOp) (t : TimestampedInputs) :
    (applyOp op t).2.events = t.events ∧
    t.cursor ≤ (applyOp op t).2.cursor ∧
    List.Sublist (applyOp op t).1 ((t.events.drop t.cursor).take
      ((applyOp op t).2.cursor - t.cursor)) := by
  cases op with
  | next =>
    by_cases h : t.cursor < t.events.length
    · refine ⟨?_, ?_, ?_⟩
      · simp [applyOp, TimestampedInputs.next, h]
      · simp [applyOp, TimestampedInputs.next, h]
      · simp only [applyOp, TimestampedInputs.next, dif_pos h, Option.toList,
          Nat.add_sub_cancel_left]
        rw [List.drop_eq_getElem_cons h]
        exact List.Sublist.refl _
    · refine ⟨?_, ?_, ?_⟩ <;> simp [applyOp, TimestampedInputs.next, h]
  | iterUntilTime x =>
    refine ⟨?_, ?_, ?_⟩ <;>
      simp [applyOp, TimestampedInputs.iter_until_time,
        iterUntilTimeGo_spec] <;>
        rw [← takeWhile_eq_take_length]
  | iterUntilFrame f =>
    refine ⟨?_, ?_, ?_⟩ <;>
      simp [applyOp, TimestampedInputs.iter_until_frame,
        iterUntilFrameGo_spec] <;>
        rw [← takeWhile_eq_take_length]
  | iterBetweenTimes s e =>
    refine ⟨?_, ?_, ?_⟩ <;>
      simp [applyOp, TimestampedInputs.iter_between_times,
        iterBetweenTimesGo_spec] <;>
        (rw [← takeWhile_eq_take_length]; exact List.filter_sublist _)
  | iterBetweenFrames s e =>
    refine ⟨?_, ?_, ?_⟩ <;>
      simp [applyOp, TimestampedInputs.iter_between_frames,
        iterBetweenFramesGo_spec] <;>
        (rw [← takeWhile_eq_take_length]; exact List.filter_sublist _)

/-- Running any sequence of reading operations preserves the events, never
moves the cursor backwards, and delivers (concatenated, in order) a
subsequence of the unread suffix — so no stored event is delivered twice. -/
theorem runOps_spec : ∀ (ops : List LogOp) (t : TimestampedInputs),
    (runOps ops t).2.events = t.events ∧
    t.cursor ≤ (runOps ops t).2.cursor ∧
    List.Sublist (runOps ops t).1 (t.events.drop t.cursor) := by
  intro ops
  induction ops with
  | nil =>
    intro t
    exact ⟨rfl, Nat.le_refl _, List.nil_sublist _⟩
  | cons op ops ih =>
    intro t
    obtain ⟨he1, hc1, hs1⟩ := applyOp_spec op t
    rcases hA : applyOp op t with ⟨out, t1⟩
    simp only [hA] at he1 hc1 hs1
    obtain ⟨he2, hc2, hs2⟩ := ih t1
    rcases hR : runOps ops t1 with ⟨outs, t2⟩
    simp only [hR] at he2 hc2 hs2
    simp only [runOps, hA, hR]
    refine ⟨he2.trans he1, le_trans hc1 hc2, ?_⟩
    have hk : t1.cursor = t.cursor + (t1.cursor - t.cursor) := by omega
    have hsplit : t.events.drop t.cursor =
        (t.events.drop t.cursor).take (t1.cursor - t.cursor) ++
          t.events.drop t1.cursor := by
      conv_lhs => rw [← List.take_append_drop (t1.cursor - t.cursor)
        (t.events.drop t.cursor)]
      rw [List.drop_drop, ← hk]
    rw [hsplit]
    refine List.Sublist.append hs1 ?_
    rw [he1] at hs2
    exact hs2

/-- C9: across any sequence of `next` / `iter_until_*` / `iter_between_*`
calls with no intervening `reset_cursor`, the cursor never decreases (per
call and over the whole run) and the delivered batches, concatenated, form a
subsequence of the unread suffix of the stored events — every stored event
is delivered at most once. -/
theorem c9_exactly_once :
    (∀ (op : LogOp) (t : TimestampedInputs),
      t.cursor ≤ (applyOp op t).2.cursor) ∧
    ∀ (ops : List LogOp) (t : TimestampedInputs),
      (runOps ops t).2.events = t.events ∧
      t.cursor ≤ (runOps ops t).2.cursor ∧
      List.Sublist (runOps ops t).1 (t.events.drop t.cursor) :=
  ⟨fun op t => (applyOp_spec op t).2.1, runOps_spec⟩

/-- C1 counterexample: in the claimed scenario (log with frames
`{0,1,2,2,3}`, fresh progress, `FrameRangeOnce(1,4)`), after the third tick
the strategy is still `FrameRangeOnce(1,4)` — the transition to `Paused`
claimed for tick 3 has not happened. -/
theorem c1_tick3_not_paused :
    ((frameTick (frameTick (frameTick
        ⟨complexLog, PlaybackStrategy.FrameRangeOnce 1 4,
          ⟨0, 0⟩⟩).2).2).2).playback_strategy =
      PlaybackStrategy.FrameRangeOnce 1 4 ∧
    ((frameTick (frameTick (frameTick
        ⟨complexLog, PlaybackStrategy.FrameRangeOnce 1 4,
          ⟨0, 0⟩⟩).2).2).2).playback_strategy ≠
      PlaybackStrategy.Paused := by
  exact ⟨by decide, by decide⟩

/-- C1 (amended): under `FrameRangeOnce(1,4)` on the `{0,1,2,2,3}` log with
fresh progress, tick 1 emits the frame-1 event, tick 2 the two frame-2
events, tick 3 the frame-3 event (with the strategy still
`FrameRangeOnce(1,4)`), and tick 4 emits nothing, transitions the strategy
to `Paused`, rewinds the cursor to 0 and zeroes the progress counters. -/
theorem c1_bounded_once_scenario :
    (frameTick ⟨complexLog, PlaybackStrategy.FrameRangeOnce 1 4,
      ⟨0, 0⟩⟩).1 = [⟨1, 1, TEST_RELEASE⟩] ∧
    (frameTick (frameTick ⟨complexLog, PlaybackStrategy.FrameRangeOnce 1 4,
      ⟨0, 0⟩⟩).2).1 = [⟨2, 2, TEST_PRESS⟩, ⟨2, 3, TEST_PRESS⟩] ∧
    (frameTick (frameTick (frameTick
      ⟨complexLog, PlaybackStrategy.FrameRangeOnce 1 4,
        ⟨0, 0⟩⟩).2).2).1 = [⟨3, 3, TEST_PRESS⟩] ∧
    ((frameTick (frameTick (frameTick
      ⟨complexLog, PlaybackStrategy.FrameRangeOnce 1 4,
        ⟨0, 0⟩⟩).2).2).2).playback_strategy =
      PlaybackStrategy.FrameRangeOnce 1 4 ∧
    (frameTick (frameTick (frameTick (frameTick
      ⟨complexLog, PlaybackStrategy.FrameRangeOnce 1 4,
        ⟨0, 0⟩⟩).2).2).2).1 = [] ∧
    ((frameTick (frameTick (frameTick (frameTick
      ⟨complexLog, PlaybackStrategy.FrameRangeOnce 1 4,
        ⟨0, 0⟩⟩).2).2).2).2).playback_strategy = PlaybackStrategy.Paused ∧
    ((frameTick (frameTick (frameTick (frameTick
      ⟨complexLog, PlaybackStrategy.FrameRangeOnce 1 4,
        ⟨0, 0⟩⟩).2).2).2).2).timestamped_input.cursor = 0 ∧
    ((frameTick (frameTick (frameTick (frameTick
      ⟨complexLog, PlaybackStrategy.FrameRangeOnce 1 4,
        ⟨0, 0⟩⟩).2).2).2).2).playback_progress =
      PlaybackProgress.default := by
  decide

/-- C8: under `FrameRangeLoop(1,4)` on the `{0,1,2,2,3}` log with fresh
progress, tick 3 empties the window (emitting the frame-3 event), tick 4
emits nothing (the one-tick gap), tick 5 emits exactly tick 1's (non-empty)
output, and the strategy stays `FrameRangeLoop(1,4)` after every tick. -/
theorem c8_bounded_loop_scenario :
    (frameTick (frameTick (frameTick
      ⟨complexLog, PlaybackStrategy.FrameRangeLoop 1 4,
        ⟨0, 0⟩⟩).2).2).1 = [⟨3, 3, TEST_PRESS⟩] ∧
    (frameTick (frameTick (frameTick (frameTick
      ⟨complexLog, PlaybackStrategy.FrameRangeLoop 1 4,
        ⟨0, 0⟩⟩).2).2).2).1 = [] ∧
    (frameTick (frameTick (frameTick (frameTick (frameTick
      ⟨complexLog, PlaybackStrategy.FrameRangeLoop 1 4,
        ⟨0, 0⟩⟩).2).2).2).2).1 =
      (frameTick ⟨complexLog, PlaybackStrategy.FrameRangeLoop 1 4,
        ⟨0, 0⟩⟩).1 ∧
    (frameTick ⟨complexLog, PlaybackStrategy.FrameRangeLoop 1 4,
      ⟨0, 0⟩⟩).1 ≠ [] ∧
    ((frameTick ⟨complexLog, PlaybackStrategy.FrameRangeLoop 1 4,
      ⟨0, 0⟩⟩).2).playback_strategy = PlaybackStrategy.FrameRangeLoop 1 4 ∧
    ((frameTick (frameTick ⟨complexLog,
      PlaybackStrategy.FrameRangeLoop 1 4,
        ⟨0, 0⟩⟩).2).2).playback_strategy =
      PlaybackStrategy.FrameRangeLoop 1 4 ∧
    ((frameTick (frameTick (frameTick ⟨complexLog,
      PlaybackStrategy.FrameRangeLoop 1 4,
        ⟨0, 0⟩⟩).2).2).2).playback_strategy =
      PlaybackStrategy.FrameRangeLoop 1 4 ∧
    ((frameTick (frameTick (frameTick (frameTick ⟨complexLog,
      PlaybackStrategy.FrameRangeLoop 1 4,
        ⟨0, 0⟩⟩).2).2).2).2).playback_strategy =
      PlaybackStrategy.FrameRangeLoop 1 4 ∧
    ((frameTick (frameTick (frameTick (frameTick (frameTick ⟨complexLog,
      PlaybackStrategy.FrameRangeLoop 1 4,
        ⟨0, 0⟩⟩).2).2).2).2).2).playback_strategy =
      PlaybackStrategy.FrameRangeLoop 1 4 := by
  decide

/-- C3 counterexample: the bounded strategy `FrameRangeOnce(5, 1)` — with
`start > end` — is constructed without any error and the playback step
processes it: on a log holding an event at frame 5 it emits that event and
then pauses.  The configuration is accepted, not rejected. -/
theorem c3_invalid_bounds_accepted :
    (frameTick ⟨⟨[⟨5, 0, TEST_PRESS⟩], 0⟩,
      PlaybackStrategy.FrameRangeOnce 5 1, ⟨0, 0⟩⟩).1 =
      [⟨5, 0, TEST_PRESS⟩] ∧
    ((frameTick ⟨⟨[⟨5, 0, TEST_PRESS⟩], 0⟩,
      PlaybackStrategy.FrameRangeOnce 5 1, ⟨0, 0⟩⟩).2).playback_strategy =
      PlaybackStrategy.Paused := by
  decide

/-- C3 (amended): no construction-time validation exists — a
`FrameRangeOnce` strategy with `start > end` is accepted, and the playback
step simply runs it: with fresh progress the first tick emits exactly the
events (from the cursor on, sorted log) in the one-frame window
`[start, start + 1)` and immediately transitions to `Paused` with the cursor
rewound; there is no silent wraparound for in-range bounds. -/
theorem c3_invalid_bounds_behavior (te td fc start stop : Nat)
    (log : TimestampedInputs)
    (hsorted : log.is_sorted SortingStrategy.FrameCount = true)
    (hlt : stop < start) (hbound : start + 1 < u32Mod) :
    (playback_timestamped_input te td fc
      ⟨log, PlaybackStrategy.FrameRangeOnce start stop, ⟨0, 0⟩⟩).1 =
      (log.events.drop log.cursor).filter
        (fun ev => decide (start ≤ ev.frame ∧ ev.frame < start + 1)) ∧
    ((playback_timestamped_input te td fc
      ⟨log, PlaybackStrategy.FrameRangeOnce start stop,
        ⟨0, 0⟩⟩).2).playback_strategy = PlaybackStrategy.Paused ∧
    ((playback_timestamped_input te td fc
      ⟨log, PlaybackStrategy.FrameRangeOnce start stop,
        ⟨0, 0⟩⟩).2).timestamped_input.cursor = 0 := by
  have hstart : start < u32Mod := by omega
  have h0 : (start + 0) % u32Mod = start := by
    rw [Nat.add_zero]
    exact Nat.mod_eq_of_lt hstart
  have h1 : (0 + 1) % u32Mod = 1 := by
    rw [Nat.zero_add]
    exact Nat.mod_eq_of_lt (by omega)
  have h2 : (start + 1) % u32Mod = start + 1 := Nat.mod_eq_of_lt hbound
  have hcmp : stop < start + 1 := by omega
  have hps : (log.events.drop log.cursor).Pairwise
      (fun a b => a.frame ≤ b.frame) :=
    (is_sorted_frame_pairwise log hsorted).sublist (List.drop_sublist _ _)
  refine ⟨?_, ?_, ?_⟩ <;>
    simp only [playback_timestamped_input, PlaybackProgress.current_frame,
      PlaybackProgress.next_frame, PlaybackProgress.reset,
      TimestampedInputs.reset_cursor, TimestampedInputs.iter_between_frames,
      iterBetweenFramesGo_spec, h0, h1, h2, hcmp, gt_iff_lt, if_true]
  exact filter_takeWhile_window (fun ev => ev.frame) start (start + 1)
    _ hps

/-- Witness for `c3_invalid_bounds_behavior` at a concrete input. -/
theorem c3_invalid_bounds_behavior_witness :
    (playback_timestamped_input 0 0 0
      ⟨⟨[⟨5, 0, TEST_PRESS⟩], 0⟩,
        PlaybackStrategy.FrameRangeOnce 5 1, ⟨0, 0⟩⟩).1 =
      [⟨5, 0, TEST_PRESS⟩] ∧
    ((playback_timestamped_input 0 0 0
      ⟨⟨[⟨5, 0, TEST_PRESS⟩], 0⟩,
        PlaybackStrategy.FrameRangeOnce 5 1,
          ⟨0, 0⟩⟩).2).playback_strategy = PlaybackStrategy.Paused := by
  obtain ⟨hout, hpause, _⟩ := c3_invalid_bounds_behavior 0 0 0 5 1
    ⟨[⟨5, 0, TEST_PRESS⟩], 0⟩ (by decide) (by decide) (by decide)
  exact ⟨by rw [hout]; decide, hpause⟩

/-- C4 counterexample: the playback progress tracker's window advancement
wraps instead of saturating — with `elapsed_frames = 2^32 - 1`,
`current_frame(5)` is `4`, which has wrapped below its own start operand and
equals neither the `u32`-saturated nor the `u64`-saturated sum. -/
theorem c4_progress_wraps :
    PlaybackProgress.current_frame ⟨0, u32Mod - 1⟩ 5 = 4 ∧
    (4 : Nat) < 5 ∧
    PlaybackProgress.current_frame ⟨0, u32Mod - 1⟩ 5 ≠
      min (5 + (u32Mod - 1)) (u32Mod - 1) ∧
    PlaybackProgress.current_frame ⟨0, u32Mod - 1⟩ 5 ≠
      min (5 + (u32Mod - 1)) u64Max := by
  refine ⟨by decide, by decide, by decide, by decide⟩

/-- C4 (amended): the crate's own `frame_counting::FrameCount` (`u64`) has
saturating addition and subtraction, but the playback progress tracker
operates on bevy's `u32` `FrameCount` with wrapping addition: within one
wrap it adds exactly, and past the modulus it wraps around (reduces by
`2^32`) instead of saturating. -/
theorem c4_framecount_arithmetic :
    (∀ a b : frame_counting.FrameCount64,
      (a.val + b.val ≤ u64Max → (a.add b).val = a.val + b.val) ∧
      (u64Max ≤ a.val + b.val → (a.add b).val = u64Max) ∧
      (a.sub b).val = a.val - b.val) ∧
    (∀ (p : PlaybackProgress) (start : Nat),
      (start + p.elapsed_frames < u32Mod →
        p.current_frame start = start + p.elapsed_frames) ∧
      (u32Mod ≤ start + p.elapsed_frames →
        start + p.elapsed_frames < 2 * u32Mod →
        p.current_frame start = start + p.elapsed_frames - u32Mod)) := by
  constructor
  · intro a b
    refine ⟨?_, ?_, rfl⟩
    · intro h
      simp [frame_counting.FrameCount64.add, Nat.min_def, h]
    · intro h
      rcases Nat.eq_or_lt_of_le h with h | h
      · simp [frame_counting.FrameCount64.add, Nat.min_def, h.symm]
      · simp [frame_counting.FrameCount64.add, Nat.min_def,
          Nat.not_le.mpr h, Nat.le_of_lt h]
  · intro p start
    constructor
    · intro h
      simp [PlaybackProgress.current_frame, Nat.mod_eq_of_lt h]
    · intro h1 h2
      have hlt : start + p.elapsed_frames - u32Mod < u32Mod := by omega
      rw [PlaybackProgress.current_frame, Nat.mod_eq_sub_mod h1,
        Nat.mod_eq_of_lt hlt]

/-- Witness for `c4_framecount_arithmetic` at concrete inputs. -/
theorem c4_framecount_arithmetic_witness :
    ((⟨3⟩ : frame_counting.FrameCount64).add ⟨5⟩).val = 8 ∧
    ((⟨u64Max⟩ : frame_counting.FrameCount64).add ⟨1⟩).val = u64Max ∧
    PlaybackProgress.current_frame ⟨0, 7⟩ 2 = 9 ∧
    PlaybackProgress.current_frame ⟨0, u32Mod - 1⟩ 5 = 4 := by
  refine ⟨(c4_framecount_arithmetic.1 ⟨3⟩ ⟨5⟩).1 (by decide),
    (c4_framecount_arithmetic.1 ⟨u64Max⟩ ⟨1⟩).2.1 (by decide),
    (c4_framecount_arithmetic.2 ⟨0, 7⟩ 2).1 (by decide), ?_⟩
  have h := (c4_framecount_arithmetic.2 ⟨0, u32Mod - 1⟩ 5).2
    (by decide) (by decide)
  simpa using h

/-- `send_multiple` appends the tagged events in order and leaves the cursor
alone. -/
theorem send_multiple_spec :
    ∀ (evs : List InputEvent) (t : TimestampedInputs) (f τ : Nat),
    (t.send_multiple f τ evs).events =
      t.events ++ evs.map (fun ev => ⟨f, τ, ev⟩) ∧
    (t.send_multiple f τ evs).cursor = t.cursor := by
  intro evs
  induction evs with
  | nil =>
    intro t f τ
    simp [TimestampedInputs.send_multiple]
  | cons e rest ih =>
    intro t f τ
    have hstep := ih (t.send f τ e) f τ
    simp only [TimestampedInputs.send_multiple, List.foldl_cons] at hstep ⊢
    refine ⟨?_, ?_⟩
    · rw [hstep.1]
      simp [TimestampedInputs.send]
    · rw [hstep.2]
      simp [TimestampedInputs.send]

/-- The events-equation form of `send_multiple_spec`. -/
theorem send_multiple_events (t : TimestampedInputs) (f τ : Nat)
    (evs : List InputEvent) :
    (t.send_multiple f τ evs).events =
      t.events ++ evs.map (fun ev => ⟨f, τ, ev⟩) :=
  (send_multiple_spec evs t f τ).1

/-- The cursor-preservation form of `send_multiple_spec`. -/
theorem send_multiple_cursor (t : TimestampedInputs) (f τ : Nat)
    (evs : List InputEvent) :
    (t.send_multiple f τ evs).cursor = t.cursor :=
  (send_multiple_spec evs t f τ).2

/-- One `capture_input` run appends exactly `captureTickEvents` and leaves
the cursor alone. -/
theorem capture_input_spec (q : RawInputQueues) (wf : Option Nat)
    (m : InputModesCaptured) (f τ : Nat) (log : TimestampedInputs) :
    (capture_input q wf m f τ log).events =
      log.events ++ captureTickEvents q wf m f τ ∧
    (capture_input q wf m f τ log).cursor = log.cursor := by
  rcases m with ⟨mb, mm, kb, gp⟩
  cases mb <;> cases mm <;> cases kb <;> cases gp <;>
    exact ⟨by simp [capture_input, captureTickEvents, send_multiple_events,
        List.append_assoc, List.map_map, Function.comp_def],
      by simp [capture_input, send_multiple_cursor]⟩

/-- Folding `capture_input` over ticks appends the per-tick contributions in
order. -/
theorem runCapture_spec :
    ∀ (ticks : List (RawInputQueues × Option Nat × InputModesCaptured ×
      Nat × Nat)) (log : TimestampedInputs),
    (runCapture ticks log).events = log.events ++
      (ticks.map (fun tk =>
        captureTickEvents tk.1 tk.2.1 tk.2.2.1 tk.2.2.2.1 tk.2.2.2.2)).flatten := by
  intro ticks
  induction ticks with
  | nil =>
    intro log
    simp [runCapture]
  | cons tk rest ih =>
    intro log
    simp only [runCapture, List.foldl_cons, List.map_cons, List.flatten_cons]
    have hstep := capture_input_spec tk.1 tk.2.1 tk.2.2.1 tk.2.2.2.1
      tk.2.2.2.2 log
    have htail := ih (capture_input tk.1 tk.2.1 tk.2.2.1 tk.2.2.2.1
      tk.2.2.2.2 log)
    simp only [runCapture] at htail
    rw [htail, hstep.1, List.append_assoc]

/-- Every event a capture tick contributes is tagged with the tick's frame
and time and is either an event of an enabled class or an `AppExit`. -/
theorem mem_captureTickEvents (q : RawInputQueues) (wf : Option Nat)
    (m : InputModesCaptured) (f τ : Nat) (ev : TimestampedInputEvent)
    (h : ev ∈ captureTickEvents q wf m f τ) :
    (∃ x, ev = ⟨f, τ, InputEvent.MouseButton x⟩ ∧ m.mouse_buttons = true) ∨
    (∃ x, ev = ⟨f, τ, InputEvent.MouseWheel x⟩ ∧ m.mouse_buttons = true) ∨
    (∃ x, ev = ⟨f, τ, InputEvent.CursorMoved x⟩ ∧ m.mouse_motion = true) ∨
    (∃ x, ev = ⟨f, τ, InputEvent.Keyboard x⟩ ∧ m.keyboard = true) ∨
    (∃ x, ev = ⟨f, τ, InputEvent.Gamepad x⟩ ∧ m.gamepad = true) ∨
    ev = ⟨f, τ, InputEvent.AppExit⟩ := by
  rcases m with ⟨mb, mmo, kb, gp⟩
  cases mb <;> cases mmo <;> cases kb <;> cases gp <;>
    simp only [captureTickEvents, if_true, if_false, List.append_nil,
      List.nil_append, List.append_assoc, List.mem_append,
      List.mem_map] at h <;>
      aesop

/-- C5: each capture tick appends exactly its contribution (disabled-class
queues are consumed but contribute nothing, so the log does not grow for
them), `AppExit` events are always appended regardless of the mask, and a
multi-tick run appends only per-tick contributions — discarded events of an
earlier disabled tick can never reappear when the class is re-enabled. -/
theorem c5_capture_filtering (q : RawInputQueues) (wf : Option Nat)
    (m : InputModesCaptured) (f τ : Nat) (log : TimestampedInputs)
    (ticks : List (RawInputQueues × Option Nat × InputModesCaptured ×
      Nat × Nat)) :
    (capture_input q wf m f τ log).events =
      log.events ++ captureTickEvents q wf m f τ ∧
    (m.keyboard = false → ∀ ev ∈ captureTickEvents q wf m f τ,
      isKeyboard ev.input_event = false) ∧
    (m.mouse_buttons = false → ∀ ev ∈ captureTickEvents q wf m f τ,
      isMouseButton ev.input_event = false ∧
      isMouseWheel ev.input_event = false) ∧
    (m.mouse_motion = false → ∀ ev ∈ captureTickEvents q wf m f τ,
      isCursorMoved ev.input_event = false) ∧
    (m.gamepad = false → ∀ ev ∈ captureTickEvents q wf m f τ,
      isGamepad ev.input_event = false) ∧
    List.IsSuffix (q.app_exit_events.map
      (fun _ => ⟨f, τ, InputEvent.AppExit⟩))
      (capture_input q wf m f τ log).events ∧
    (runCapture ticks log).events = log.events ++
      (ticks.map (fun tk =>
        captureTickEvents tk.1 tk.2.1 tk.2.2.1 tk.2.2.2.1
          tk.2.2.2.2)).flatten := by
  have h1 := (capture_input_spec q wf m f τ log).1
  refine ⟨h1, ?_, ?_, ?_, ?_, ?_, runCapture_spec ticks log⟩
  · intro hm ev hmem
    rcases mem_captureTickEvents q wf m f τ ev hmem with
      ⟨x, rfl, hb⟩ | ⟨x, rfl, hb⟩ | ⟨x, rfl, hb⟩ | ⟨x, rfl, hb⟩ |
      ⟨x, rfl, hb⟩ | rfl <;>
      simp_all [isKeyboard]
  · intro hm ev hmem
    rcases mem_captureTickEvents q wf m f τ ev hmem with
      ⟨x, rfl, hb⟩ | ⟨x, rfl, hb⟩ | ⟨x, rfl, hb⟩ | ⟨x, rfl, hb⟩ |
      ⟨x, rfl, hb⟩ | rfl <;>
      simp_all [isMouseButton, isMouseWheel]
  · intro hm ev hmem
    rcases mem_captureTickEvents q wf m f τ ev hmem with
      ⟨x, rfl, hb⟩ | ⟨x, rfl, hb⟩ | ⟨x, rfl, hb⟩ | ⟨x, rfl, hb⟩ |
      ⟨x, rfl, hb⟩ | rfl <;>
      simp_all [isCursorMoved]
  · intro hm ev hmem
    rcases mem_captureTickEvents q wf m f τ ev hmem with
      ⟨x, rfl, hb⟩ | ⟨x, rfl, hb⟩ | ⟨x, rfl, hb⟩ | ⟨x, rfl, hb⟩ |
      ⟨x, rfl, hb⟩ | rfl <;>
      simp_all [isGamepad]
  · have hQ : List.IsSuffix (q.app_exit_events.map
        (fun _ => (⟨f, τ, InputEvent.AppExit⟩ : TimestampedInputEvent)))
        (captureTickEvents q wf m f τ) := by
      simp only [captureTickEvents, ← List.append_assoc]
      exact List.suffix_append _ _
    rw [h1]
    exact hQ.trans (List.suffix_append _ _)

/-- Witness for `c5_capture_filtering` at a concrete input: one tick with
every class disabled, a pending keyboard event and a pending `AppExit` —
only the `AppExit` is appended. -/
theorem c5_capture_filtering_witness :
    (capture_input ⟨[⟨1, 10⟩], [], [], [⟨2, 20⟩], [], [()]⟩ none
      InputModesCaptured.DISABLE_ALL 3 7 ⟨[], 0⟩).events =
      [] ++ captureTickEvents ⟨[⟨1, 10⟩], [], [], [⟨2, 20⟩], [], [()]⟩ none
        InputModesCaptured.DISABLE_ALL 3 7 ∧
    isKeyboard (⟨3, 7, InputEvent.AppExit⟩ :
      TimestampedInputEvent).input_event = false := by
  obtain ⟨h1, h2, _, _, _, _, _⟩ := c5_capture_filtering
    ⟨[⟨1, 10⟩], [], [], [⟨2, 20⟩], [], [()]⟩ none
    InputModesCaptured.DISABLE_ALL 3 7 ⟨[], 0⟩ []
  exact ⟨h1, h2 (by decide) ⟨3, 7, InputEvent.AppExit⟩ (by decide)⟩

/-!
### Round trip of the serialization adapter
-/

/-- The decimal digit characters decode back to their value. -/
theorem digitChar_toNat (d : Nat) (h : d < 10) :
    (digitChar d).toNat = 48 + d := by
  interval_cases d <;> decide

/-- The decimal digit characters are digits. -/
theorem digitChar_isDigit (d : Nat) (h : d < 10) :
    (digitChar d).isDigit = true := by
  interval_cases d <;> decide

/-- `natChars` is nonempty and consists of digits. -/
theorem natChars_digits (n : Nat) :
    natChars n ≠ [] ∧ ∀ c ∈ natChars n, c.isDigit = true := by
  induction n using Nat.strong_induction_on with
  | _ n ih =>
    by_cases h : n < 10
    · rw [natChars, dif_pos h]
      refine ⟨by simp, ?_⟩
      intro c hc
      rw [List.mem_singleton] at hc
      exact hc ▸ digitChar_isDigit n h
    · rw [natChars, dif_neg h]
      obtain ⟨_, ihd⟩ := ih (n / 10) (Nat.div_lt_self (by omega) (by omega))
      refine ⟨by simp, ?_⟩
      intro c hc
      rcases List.mem_append.mp hc with hc | hc
      · exact ihd c hc
      · rw [List.mem_singleton] at hc
        exact hc ▸ digitChar_isDigit _ (Nat.mod_lt _ (by omega))

/-- `readNat` consumes a leading run of digits, folding them into the
accumulator. -/
theorem readNat_digits_append :
    ∀ (ds rest : List Char) (acc : Nat),
    (∀ c ∈ ds, c.isDigit = true) →
    readNat (ds ++ rest) acc =
      readNat rest (ds.foldl (fun a c => a * 10 + (c.toNat - 48)) acc) := by
  intro ds
  induction ds with
  | nil => intro rest acc _; rfl
  | cons c cs ih =>
    intro rest acc h
    simp only [List.cons_append, readNat, List.foldl_cons]
    rw [if_pos (h c (List.mem_cons_self c cs))]
    exact ih rest _ (fun x hx => h x (List.mem_cons_of_mem c hx))

/-- `readNat` stops at a non-digit (or the end). -/
theorem readNat_stop (rest : List Char) (acc : Nat)
    (h : ∀ c cs, rest = c :: cs → c.isDigit = false) :
    readNat rest acc = (acc, rest) := by
  cases rest with
  | nil => rfl
  | cons c cs => simp [readNat, h c cs rfl]

/-- Folding the decimal digits of `n` from a zero accumulator recovers
`n`. -/
theorem natChars_foldl (n : Nat) :
    (natChars n).foldl (fun a c => a * 10 + (c.toNat - 48)) 0 = n := by
  induction n using Nat.strong_induction_on with
  | _ n ih =>
    by_cases h : n < 10
    · rw [natChars, dif_pos h]
      simp only [List.foldl_cons, List.foldl_nil]
      rw [digitChar_toNat n h]
      omega
    · rw [natChars, dif_neg h]
      rw [List.foldl_append]
      rw [ih (n / 10) (Nat.div_lt_self (by omega) (by omega))]
      simp only [List.foldl_cons, List.foldl_nil]
      rw [digitChar_toNat _ (Nat.mod_lt _ (by omega))]
      omega

/-- Parsing the decimal encoding of `n`, followed by a non-digit remainder,
yields `n` and the remainder. -/
theorem parseNum_natChars (n : Nat) (rest : List Char)
    (h : ∀ c cs, rest = c :: cs → c.isDigit = false) :
    parseNum (natChars n ++ rest) = some (n, rest) := by
  obtain ⟨hne, hdig⟩ := natChars_digits n
  obtain ⟨c, cs, hcons⟩ := List.exists_cons_of_ne_nil hne
  have hcmem : c ∈ natChars n := by
    rw [hcons]
    exact List.mem_cons_self _ _
  have hc : c.isDigit = true := hdig c hcmem
  rw [hcons, List.cons_append]
  simp only [parseNum, hc, if_true]
  rw [← List.cons_append, ← hcons]
  rw [readNat_digits_append (natChars n) rest 0 hdig, natChars_foldl,
    readNat_stop rest n h]

/-- A cons cell headed by a non-digit satisfies the non-digit-head
condition. -/
theorem headNotDigit_cons (c : Char) (hc : c.isDigit = false)
    (cs : List Char) :
    ∀ a as, c :: cs = a :: as → a.isDigit = false := by
  intro a as h
  injection h with h1 _
  rw [← h1]
  exact hc

/-- Parsing the encoding of an event, followed by a non-digit remainder,
yields the event back. -/
theorem parseEvent_serializeEvent (ev : InputEvent) (rest : List Char)
    (h : ∀ c cs, rest = c :: cs → c.isDigit = false) :
    parseEvent (serializeEvent ev ++ rest) = some (ev, rest) := by
  cases ev with
  | Keyboard k =>
    simp only [serializeEvent, List.cons_append, List.append_assoc,
      parseEvent, parsePayload2, expectChar, Option.bind_eq_bind,
      Option.some_bind, if_true]
    rw [parseNum_natChars _ _ (headNotDigit_cons ' ' (by decide) _)]
    simp only [Option.some_bind]
    simp
    rw [parseNum_natChars _ _ h]
    simp
  | MouseButton b =>
    simp only [serializeEvent, List.cons_append, List.append_assoc,
      parseEvent, parsePayload2, expectChar, Option.bind_eq_bind,
      Option.some_bind, if_true]
    rw [parseNum_natChars _ _ (headNotDigit_cons ' ' (by decide) _)]
    simp only [Option.some_bind]
    simp
    rw [parseNum_natChars _ _ h]
    simp
  | MouseWheel w =>
    simp only [serializeEvent, List.cons_append, List.append_assoc,
      parseEvent, parsePayload2, expectChar, Option.bind_eq_bind,
      Option.some_bind, if_true]
    rw [parseNum_natChars _ _ (headNotDigit_cons ' ' (by decide) _)]
    simp only [Option.some_bind]
    simp
    rw [parseNum_natChars _ _ h]
    simp
  | CursorMoved c =>
    simp only [serializeEvent, List.cons_append, List.append_assoc,
      parseEvent, parsePayload2, expectChar, Option.bind_eq_bind,
      Option.some_bind, if_true]
    rw [parseNum_natChars _ _ (headNotDigit_cons ' ' (by decide) _)]
    simp only [Option.some_bind]
    simp
    rw [parseNum_natChars _ _ h]
    simp
  | Gamepad g =>
    simp only [serializeEvent, List.cons_append, List.append_assoc,
      parseEvent, expectChar, Option.bind_eq_bind, Option.some_bind, if_true]
    rw [parseNum_natChars _ _ h]
    simp
  | AppExit =>
    simp [serializeEvent, parseEvent]

/-- Parsing the encoding of one record, followed by any remainder, yields
the record back. -/
theorem parseRecord_serializeRecord (e : TimestampedInputEvent)
    (rest : List Char) :
    parseRecord (serializeRecord e ++ rest) = some (e, rest) := by
  simp only [serializeRecord, List.cons_append, List.append_assoc,
    parseRecord, expectChar, Option.bind_eq_bind, Option.some_bind, if_true]
  rw [parseNum_natChars _ _ (headNotDigit_cons ' ' (by decide) _)]
  simp only [Option.some_bind]
  simp
  rw [parseNum_natChars _ _ (headNotDigit_cons ' ' (by decide) _)]
  simp only [Option.some_bind]
  simp
  rw [parseEvent_serializeEvent _ _ (headNotDigit_cons '\n' (by decide) _)]
  simp

/-- Parsing the concatenated record encodings — with enough fuel and a
remainder that does not begin with a record marker — yields the records
back. -/
theorem parseRecords_complete :
    ∀ (events : List TimestampedInputEvent) (fuel : Nat) (rest : List Char),
    events.length ≤ fuel →
    (∀ c cs, rest = c :: cs → c ≠ 'e') →
    parseRecords fuel ((events.map serializeRecord).flatten ++ rest) =
      some (events, rest) := by
  intro events
  induction events with
  | nil =>
    intro fuel rest _ hr
    simp only [List.map_nil, List.flatten_nil, List.nil_append]
    cases fuel with
    | zero => rfl
    | succ f =>
      cases rest with
      | nil => rfl
      | cons c cs =>
        simp [parseRecords, hr c cs rfl]
  | cons e es ih =>
    intro fuel rest hf hr
    cases fuel with
    | zero => simp at hf
    | succ f =>
      have hform : ((e :: es).map serializeRecord).flatten ++ rest =
          serializeRecord e ++ ((es.map serializeRecord).flatten ++ rest) := by
        simp [List.append_assoc]
      have hT : serializeRecord e ++
          ((es.map serializeRecord).flatten ++ rest) =
          'e' :: ((' ' :: (natChars e.frame ++ ' ' ::
            (natChars e.time_since_startup ++ ' ' ::
              (serializeEvent e.input_event ++ ['\n'])))) ++
            ((es.map serializeRecord).flatten ++ rest)) := rfl
      have hlen : es.length ≤ f := by
        simp only [List.length_cons] at hf
        omega
      have hparse := parseRecord_serializeRecord e
        ((es.map serializeRecord).flatten ++ rest)
      have hrec := ih f rest hlen hr
      rw [hform, hT]
      simp only [parseRecords, Option.bind_eq_bind, if_true]
      rw [← hT, hparse]
      simp only [Option.some_bind]
      rw [hrec]
      simp

/-- Each record encoding is at least one character long, so the serialized
form is long enough to fuel the record parser. -/
theorem length_le_serialized (events : List TimestampedInputEvent) :
    ∀ rest : List Char,
    events.length ≤ ((events.map serializeRecord).flatten ++ rest).length := by
  induction events with
  | nil => intro rest; simp
  | cons e es ih =>
    intro rest
    have hih := ih rest
    simp only [List.map_cons, List.flatten_cons, List.length_cons,
      List.append_assoc, List.length_append] at hih ⊢
    simp only [serializeRecord, List.length_cons]
    omega

/-- C2: deserializing the serialized text of any log — whatever its events
and cursor — reproduces the log exactly: same events in the same order and
the same cursor. -/
theorem c2_serialize_round_trip (log : TimestampedInputs) :
    deserialize (serialize log) = some log := by
  have hr : ∀ c cs,
      'c' :: ' ' :: (natChars log.cursor ++ ['\n']) = c :: cs → c ≠ 'e' := by
    intro c cs hh
    injection hh with h1 _
    rw [← h1]
    decide
  have hf : log.events.length ≤ (serialize log).length := by
    have := length_le_serialized log.events
      ('c' :: ' ' :: (natChars log.cursor ++ ['\n']))
    simpa [serialize] using this
  have hrecs := parseRecords_complete log.events (serialize log).length
    ('c' :: ' ' :: (natChars log.cursor ++ ['\n'])) hf hr
  simp only [deserialize, Option.bind_eq_bind]
  rw [show serialize log = (log.events.map serializeRecord).flatten ++
    'c' :: ' ' :: (natChars log.cursor ++ ['\n']) from rfl] at hrecs ⊢
  rw [hrecs]
  simp only [Option.some_bind, expectChar, if_true]
  rw [parseNum_natChars _ _ (headNotDigit_cons '\n' (by decide) _)]
  simp

/-- Witness for `c6_cursor_exhaustion` on the concrete five-event log with
`F = 5` (at least the last frame, 3). -/
theorem c6_cursor_exhaustion_witness :
    (complexLog.iter_until_frame 5).2.cursor = complexLog.events.length ∧
    ((complexLog.iter_until_frame 5).2.iter_until_frame 7).1 = [] := by
  obtain ⟨h1, h2⟩ := c6_cursor_exhaustion complexLog 5 (by decide) (by decide)
    (by
      intro z hz
      simp [complexLog, TEST_PRESS] at hz
      rw [← hz]
      decide)
  exact ⟨h1, h2 7⟩

/-- Witness for `c7_half_open_window` on the concrete five-event log with
the window `[1, 3)`, in both the frame and the time flavour. -/
theorem c7_half_open_window_witness :
    ((complexLog.iter_between_frames 1 3).1 =
      (complexLog.events.drop complexLog.cursor).filter
        (fun ev => decide (1 ≤ ev.frame ∧ ev.frame < 3)) ∧
    (complexLog.iter_between_frames 1 3).2.cursor =
      complexLog.cursor +
        ((complexLog.events.drop complexLog.cursor).takeWhile
          (fun ev => decide (ev.frame < 3))).length) ∧
    ((complexLog.iter_between_times 1 3).1 =
      (complexLog.events.drop complexLog.cursor).filter
        (fun ev => decide (1 ≤ ev.time_since_startup ∧
          ev.time_since_startup < 3)) ∧
    (complexLog.iter_between_times 1 3).2.cursor =
      complexLog.cursor +
        ((complexLog.events.drop complexLog.cursor).takeWhile
          (fun ev => decide (ev.time_since_startup < 3))).length) :=
  ⟨(c7_half_open_window complexLog 1 3).1 (by decide),
   (c7_half_open_window complexLog 1 3).2 (by decide)⟩

/-- Witness for `c10_degenerate_window` on the concrete five-event log with
the degenerate window `[4, 2)`. -/
theorem c10_degenerate_window_witness :
    (complexLog.iter_between_frames 4 2).1 = [] ∧
    (complexLog.iter_between_frames 4 2).2.cursor =
      complexLog.cursor + ((complexLog.events.drop complexLog.cursor).filter
        (fun ev => decide (ev.frame < 2))).length := by
  obtain ⟨⟨h1, h2⟩, _⟩ := c10_degenerate_window complexLog 4 2 (by decide)
  exact ⟨h1, h2 (by decide)⟩

end Leafwing
